import Mathlib

/-!
Shallow embedding of `src/main.py` (arifwcma/pixxel): a tool that splits a
georeferenced raster into a grid of patch tiles, skipping fully-NoData cells.

The embedding models:
* Python dict values appearing in a rasterio profile (`PVal`), profiles as
  association lists with dict get/pop/set semantics;
* rasterio affine transforms (`Affine`, row-major 6-tuple `a b c d e f`,
  acting on pixel coordinates as `(col, row) ↦ (a*col + b*row + c, d*col + e*row + f)`)
  and `rasterio.windows.transform` (composition with a pixel translation);
* the source raster as a structure of dimensions, band count, transform,
  profile, per-pixel data and per-pixel combined validity mask;
* the run of `split_to_patches` as a fold over the row-major cell list,
  recording counters, written tiles, pixel-data reads and log events.
-/

namespace Pixxel

/-- An affine geotransform with coefficients `a b c d e f`, as in
`rasterio.transform.Affine(a, b, c, d, e, f)`. -/
structure Affine where
  a : ℚ
  b : ℚ
  c : ℚ
  d : ℚ
  e : ℚ
  f : ℚ
deriving DecidableEq, Repr

/-- Apply an affine transform to a pixel coordinate `(col, row)`,
returning a world coordinate, following rasterio's convention
`(x, y) = T * (col, row, 1)`. -/
def Affine.apply (t : Affine) (col row : ℚ) : ℚ × ℚ :=
  (t.a * col + t.b * row + t.c, t.d * col + t.e * row + t.f)

/-- Composition of affine transforms (matrix product of the corresponding
3×3 matrices with last row `0 0 1`). -/
def Affine.mul (t u : Affine) : Affine :=
  ⟨t.a * u.a + t.b * u.d, t.a * u.b + t.b * u.e, t.a * u.c + t.b * u.f + t.c,
   t.d * u.a + t.e * u.d, t.d * u.b + t.e * u.e, t.d * u.c + t.e * u.f + t.f⟩

/-- `Affine.translation tx ty`, as in rasterio: shifts pixel coordinates by
`(tx, ty)`. -/
def Affine.translation (tx ty : ℚ) : Affine :=
  ⟨1, 0, tx, 0, 1, ty⟩

/-- A rectangular pixel window of the source raster:
`rasterio.windows.Window(col_off, row_off, width, height)`. -/
structure Window where
  col_off : Nat
  row_off : Nat
  width : Nat
  height : Nat
deriving DecidableEq, Repr

/-- `rasterio.windows.transform(window, src_transform)`: the window's own
affine transform, i.e. the source transform composed with the translation
by the window's pixel offset. -/
def window_transform (w : Window) (t : Affine) : Affine :=
  t.mul (Affine.translation w.col_off w.row_off)

/-- A Python value that can appear in a rasterio profile dict. -/
inductive PVal where
  | b : Bool → PVal
  | i : Int → PVal
  | s : String → PVal
  | af : Affine → PVal
deriving DecidableEq, Repr

/-- A rasterio profile: a Python dict from string keys to values, modelled
as an association list with at most one entry per key. -/
abbrev Profile := List (String × PVal)

/-- Python `p.get(k, None)` on a dict (keys are unique): the value at the
first entry with key `k`, if any. -/
def dictGet : Profile → String → Option PVal
  | [], _ => none
  | kv :: p, k => if kv.1 = k then some kv.2 else dictGet p k

/-- Python `p.pop(k, None)` on a dict: the dict with key `k` removed. -/
def dictPop (p : Profile) (k : String) : Profile :=
  p.filter (fun kv => kv.1 != k)

/-- Python `p[k] = v` on a dict: replace the value at key `k` in place if
present, otherwise append a new entry at the end. -/
def dictSet : Profile → String → PVal → Profile
  | [], k, v => [(k, v)]
  | kv :: p, k, v => if kv.1 = k then (k, v) :: p else kv :: dictSet p k v

/-- `_sanitize_profile_for_small_geotiffs` from `src/main.py`: copy the
profile, pop `blockxsize`/`blockysize`, rewrite `tiled` to `False` when it
is exactly `True`, and pop `BIGTIFF`/`bigtiff`. -/
def sanitize_profile_for_small_geotiffs (profile : Profile) : Profile :=
  let p := profile
  let p := dictPop (dictPop p "blockxsize") "blockysize"
  let p := if dictGet p "tiled" = some (PVal.b true) then dictSet p "tiled" (PVal.b false) else p
  let p := dictPop (dictPop p "BIGTIFF") "bigtiff"
  p

/-- The source raster as `split_to_patches` sees it through rasterio:
dimensions, band count, geotransform, writer profile, per-pixel data
(indexed band, row, col) and the per-pixel combined validity mask
(`dataset_mask`, 0 = invalid in every band, nonzero = valid). -/
structure SourceRaster where
  width : Nat
  height : Nat
  bands : Nat
  transform : Affine
  profile : Profile
  data : Nat → Nat → Nat → Int
  mask : Nat → Nat → Nat

/-- `math.ceil(w / patch_size)` for natural `w` and positive `patch_size`,
as exact integer arithmetic. -/
def ceil_div (w p : Nat) : Nat := (w + p - 1) / p

/-- `n_cols = math.ceil(w / patch_size)` (line 62 of `src/main.py`). -/
def n_cols (w patch_size : Nat) : Nat := ceil_div w patch_size

/-- `n_rows = math.ceil(h / patch_size)` (line 63 of `src/main.py`). -/
def n_rows (h patch_size : Nat) : Nat := ceil_div h patch_size

/-- The pixel window of grid cell `(x, y)` (lines 79–86 of `src/main.py`):
offsets `x*patch_size, y*patch_size`, sizes clipped at the raster edges. -/
def windowOf (w h patch_size : Nat) (cell : Nat × Nat) : Window :=
  let col_off := cell.1 * patch_size
  let row_off := cell.2 * patch_size
  ⟨col_off, row_off, min patch_size (w - col_off), min patch_size (h - row_off)⟩

/-- `src.dataset_mask(window=window).max()`: the maximum of the combined
validity mask over the window's pixels (0 when the window is empty). -/
def windowMaskMax (src : SourceRaster) (w : Window) : Nat :=
  ((List.range w.height).map (fun r =>
    ((List.range w.width).map (fun c => src.mask (w.row_off + r) (w.col_off + c))).foldr max 0)).foldr max 0

/-- `src.read(window=window)`: the pixel data of the window, materialised
as a bands × height × width nested list. -/
def readWindowData (src : SourceRaster) (w : Window) : List (List (List Int)) :=
  (List.range src.bands).map (fun bnd =>
    (List.range w.height).map (fun r =>
      (List.range w.width).map (fun c => src.data bnd (w.row_off + r) (w.col_off + c))))

/-- `src.dataset_mask(window=window)`: the combined validity mask of the
window, materialised as a height × width nested list. -/
def readWindowMask (src : SourceRaster) (w : Window) : List (List Nat) :=
  (List.range w.height).map (fun r =>
    (List.range w.width).map (fun c => src.mask (w.row_off + r) (w.col_off + c)))

/-- A written output tile: its grid cell, output path, writer profile
(sanitized base overlaid with `height`, `width`, `transform`), pixel data
and validity mask — the content of one `{x}_{y}.tif` file. -/
structure Tile where
  cell : Nat × Nat
  path : String
  profile : Profile
  data : List (List (List Int))
  mask : List (List Nat)
deriving DecidableEq

/-- A console log event of the run: a periodic progress line (with the
`processed`, `written`, `discarded` values it prints) or the end-of-run
summary block. -/
inductive LogEv where
  | periodic : Nat → Nat → Nat → LogEv
  | summary : LogEv
deriving DecidableEq, Repr

/-- The observable state of a run of `split_to_patches`: the three
counters, the tiles written so far (in order), the pixel-data window reads
performed so far (tagged with their cell), and the log lines emitted. -/
structure RunState where
  processed : Nat
  written : Nat
  discarded : Nat
  tiles : List Tile
  reads : List ((Nat × Nat) × Window)
  logs : List LogEv
deriving DecidableEq

/-- The counters at the start of a run (lines 72–74 of `src/main.py`). -/
def initState : RunState := ⟨0, 0, 0, [], [], []⟩

/-- The output path `os.path.join(out_dir, f"{x}_{y}.tif")`. -/
def tilePath (out_dir : String) (cell : Nat × Nat) : String :=
  out_dir ++ "/" ++ toString cell.1 ++ "_" ++ toString cell.2 ++ ".tif"

/-- The output profile of a written tile (lines 103–108 of `src/main.py`):
the base profile overlaid, in order, with the window's `height`, `width`
and affine `transform`. -/
def out_profileOf (src : SourceRaster) (base_profile : Profile) (window : Window) : Profile :=
  dictSet (dictSet (dictSet base_profile
    "height" (PVal.i (Int.ofNat window.height)))
    "width" (PVal.i (Int.ofNat window.width)))
    "transform" (PVal.af (window_transform window src.transform))

/-- The tile written for a (non-discarded) grid cell (lines 101–121 of
`src/main.py`): path `{x}_{y}.tif` under `out_dir`, the overlaid profile,
the window's pixel data and its validity mask. -/
def tileOf (src : SourceRaster) (patch_size : Nat) (out_dir : String)
    (base_profile : Profile) (cell : Nat × Nat) : Tile :=
  let window := windowOf src.width src.height patch_size cell
  ⟨cell, tilePath out_dir cell, out_profileOf src base_profile window,
   readWindowData src window, readWindowMask src window⟩

/-- The body of the inner loop of `split_to_patches` (lines 79–124 of
`src/main.py`) for one grid cell, acting on the run state. -/
def stepCell (src : SourceRaster) (patch_size log_every : Nat) (out_dir : String)
    (base_profile : Profile) (st : RunState) (cell : Nat × Nat) : RunState :=
  let window := windowOf src.width src.height patch_size cell
  if windowMaskMax src window = 0 then
    let processed1 := st.processed + 1
    let discarded1 := st.discarded + 1
    let logs1 := st.logs ++
      (if log_every ≠ 0 ∧ processed1 % log_every = 0 then
        [LogEv.periodic processed1 st.written discarded1] else [])
    { st with processed := processed1, discarded := discarded1, logs := logs1 }
  else
    let logs1 := st.logs ++
      (if log_every ≠ 0 ∧ st.processed % log_every = 0 ∧ st.processed ≠ 0 then
        [LogEv.periodic st.processed st.written st.discarded] else [])
    { st with written := st.written + 1, processed := st.processed + 1,
              tiles := st.tiles ++ [tileOf src patch_size out_dir base_profile cell],
              reads := st.reads ++ [(cell, window)],
              logs := logs1 }

/-- The row-major enumeration of grid cells: all `x` for `y = 0`, then
`y = 1`, … (the nested loops at lines 78 and 82 of `src/main.py`). -/
def cellList (rows cols : Nat) : List (Nat × Nat) :=
  (List.range rows).flatMap (fun y => (List.range cols).map (fun x => (x, y)))

/-- `split_to_patches` from `src/main.py`, as a function from the source
raster and parameters to the observable run state (counters, tiles written,
reads, logs); the sanitized base profile is computed once per run. -/
def split_to_patches (src : SourceRaster) (patch_size : Nat) (out_dir : String)
    (log_every : Nat) : RunState :=
  let base_profile := sanitize_profile_for_small_geotiffs src.profile
  let cells := cellList (n_rows src.height patch_size) (n_cols src.width patch_size)
  let st := cells.foldl (stepCell src patch_size log_every out_dir base_profile) initState
  { st with logs := st.logs ++ [LogEv.summary] }

/-- The run state after processing only the first `k` grid cells (a prefix
of the row-major enumeration), before the summary is printed. -/
def run_upto (src : SourceRaster) (patch_size : Nat) (out_dir : String)
    (log_every : Nat) (k : Nat) : RunState :=
  let base_profile := sanitize_profile_for_small_geotiffs src.profile
  let cells := cellList (n_rows src.height patch_size) (n_cols src.width patch_size)
  (cells.take k).foldl (stepCell src patch_size log_every out_dir base_profile) initState

/-- Whether the grid cell has at least one valid pixel, i.e. the test at
line 91 of `src/main.py` takes the write branch. -/
def cellValid (src : SourceRaster) (patch_size : Nat) (cell : Nat × Nat) : Bool :=
  windowMaskMax src (windowOf src.width src.height patch_size cell) != 0

/-- The `processed` values carried by the periodic progress lines of a log,
in emission order. -/
def periodicProcessed (logs : List LogEv) : List Nat :=
  logs.filterMap (fun e => match e with
    | LogEv.periodic pr _ _ => some pr
    | LogEv.summary => none)

/-- The `processed` values of the periodic lines emitted while handling one
cell, given the validity of the cell and the value `k` of `processed`
before the cell: the discard branch logs the post-increment value `k + 1`,
the write branch logs the pre-increment value `k` (and skips `k = 0`). -/
def logTick (log_every : Nat) (valid : Bool) (k : Nat) : List Nat :=
  if valid then
    (if log_every ≠ 0 ∧ k % log_every = 0 ∧ k ≠ 0 then [k] else [])
  else
    (if log_every ≠ 0 ∧ (k + 1) % log_every = 0 then [k + 1] else [])

/-- The `processed` values of all periodic lines emitted over a list of
cells, starting from `processed = k`. -/
def logTrace (log_every : Nat) (valid : Nat × Nat → Bool) : Nat → List (Nat × Nat) → List Nat
  | _, [] => []
  | k, c :: cs => logTick log_every (valid c) k ++ logTrace log_every valid (k + 1) cs

/-- The `k`-th grid cell of the row-major enumeration over `cols` columns. -/
def cellAt (cols k : Nat) : Nat × Nat := (k % cols, k / cols)

/-- Pixel `(i, j)` (column `i`, row `j`) lies inside the window. -/
def inWindow (w : Window) (i j : Nat) : Prop :=
  w.col_off ≤ i ∧ i < w.col_off + w.width ∧ w.row_off ≤ j ∧ j < w.row_off + w.height

instance (w : Window) (i j : Nat) : Decidable (inWindow w i j) := by
  unfold inWindow
  infer_instance

/-! ### Dictionary lemmas -/

theorem dictGet_dictPop_self (p : Profile) (k : String) : dictGet (dictPop p k) k = none := by
  induction p with
  | nil => rfl
  | cons kv p ih =>
      by_cases h : kv.1 = k
      · simpa [dictPop, List.filter_cons, h] using ih
      · simpa [dictPop, List.filter_cons, h, dictGet] using ih

theorem dictGet_dictPop_ne (p : Profile) (k k' : String) (h : k ≠ k') :
    dictGet (dictPop p k') k = dictGet p k := by
  induction p with
  | nil => rfl
  | cons kv p ih =>
      have hne' : ¬(k' = k) := fun hh => h hh.symm
      by_cases hk : kv.1 = k'
      · have hne : ¬(kv.1 = k) := fun hh => h (hh.symm.trans hk)
        simpa [dictPop, List.filter_cons, hk, dictGet, hne, hne'] using ih
      · by_cases hkk : kv.1 = k
        · simp [dictPop, List.filter_cons, hk, dictGet, hkk, h]
        · simpa [dictPop, List.filter_cons, hk, dictGet, hkk, h] using ih

theorem dictGet_dictSet_self (p : Profile) (k : String) (v : PVal) :
    dictGet (dictSet p k v) k = some v := by
  induction p with
  | nil => simp [dictGet, dictSet]
  | cons kv p ih =>
      by_cases h : kv.1 = k
      · simp [dictGet, dictSet, h]
      · simpa [dictGet, dictSet, h] using ih

theorem dictGet_dictSet_ne (p : Profile) (k k' : String) (v : PVal) (h : k ≠ k') :
    dictGet (dictSet p k' v) k = dictGet p k := by
  have hne : ¬(k' = k) := fun hh => h hh.symm
  induction p with
  | nil => simp [dictGet, dictSet, hne]
  | cons kv p ih =>
      by_cases hk : kv.1 = k'
      · have hkvne : ¬(kv.1 = k) := fun hh => h (hh.symm.trans hk)
        simp [dictGet, dictSet, hk, hne, hkvne]
      · by_cases hkk : kv.1 = k
        · simp [dictGet, dictSet, hk, hkk, h]
        · simpa [dictGet, dictSet, hk, hkk, h] using ih

/-! ### Run-state lemmas: closed form of the fold over cells -/

theorem periodicProcessed_append (l1 l2 : List LogEv) :
    periodicProcessed (l1 ++ l2) = periodicProcessed l1 ++ periodicProcessed l2 :=
  List.filterMap_append l1 l2 _

theorem periodicProcessed_if (c : Prop) [Decidable c] (a w d : Nat) :
    periodicProcessed (if c then [LogEv.periodic a w d] else []) = if c then [a] else [] := by
  split <;> rfl

theorem stepCell_invalid (src : SourceRaster) (p L : Nat) (d : String) (b : Profile)
    (st : RunState) (c : Nat × Nat)
    (h : windowMaskMax src (windowOf src.width src.height p c) = 0) :
    stepCell src p L d b st c = { st with
      processed := st.processed + 1,
      discarded := st.discarded + 1,
      logs := st.logs ++ (if L ≠ 0 ∧ (st.processed + 1) % L = 0 then
        [LogEv.periodic (st.processed + 1) st.written (st.discarded + 1)] else []) } := by
  simp [stepCell, h]

theorem stepCell_valid (src : SourceRaster) (p L : Nat) (d : String) (b : Profile)
    (st : RunState) (c : Nat × Nat)
    (h : ¬ windowMaskMax src (windowOf src.width src.height p c) = 0) :
    stepCell src p L d b st c = { st with
      written := st.written + 1,
      processed := st.processed + 1,
      tiles := st.tiles ++ [tileOf src p d b c],
      reads := st.reads ++ [(c, windowOf src.width src.height p c)],
      logs := st.logs ++ (if L ≠ 0 ∧ st.processed % L = 0 ∧ st.processed ≠ 0 then
        [LogEv.periodic st.processed st.written st.discarded] else []) } := by
  simp [stepCell, h]

theorem foldl_stepCell_spec (src : SourceRaster) (p L : Nat) (d : String) (b : Profile) :
    ∀ (cells : List (Nat × Nat)) (st : RunState),
      (cells.foldl (stepCell src p L d b) st).processed = st.processed + cells.length ∧
      (cells.foldl (stepCell src p L d b) st).written
        = st.written + (cells.filter (cellValid src p)).length ∧
      (cells.foldl (stepCell src p L d b) st).discarded
        = st.discarded + (cells.filter (fun c => ! cellValid src p c)).length ∧
      (cells.foldl (stepCell src p L d b) st).tiles
        = st.tiles ++ (cells.filter (cellValid src p)).map (tileOf src p d b) ∧
      (cells.foldl (stepCell src p L d b) st).reads
        = st.reads ++ (cells.filter (cellValid src p)).map
            (fun c => (c, windowOf src.width src.height p c)) ∧
      periodicProcessed (cells.foldl (stepCell src p L d b) st).logs
        = periodicProcessed st.logs ++ logTrace L (cellValid src p) st.processed cells := by
  intro cells
  induction cells with
  | nil => intro st; simp [logTrace]
  | cons c cs ih =>
      intro st
      obtain ⟨h1, h2, h3, h4, h5, h6⟩ := ih (stepCell src p L d b st c)
      rw [List.foldl_cons]
      by_cases hv : windowMaskMax src (windowOf src.width src.height p c) = 0
      · have hcv : cellValid src p c = false := by simp [cellValid, hv]
        have hstep := stepCell_invalid src p L d b st c hv
        refine ⟨?_, ?_, ?_, ?_, ?_, ?_⟩
        · rw [h1, hstep]; simp [List.length_cons]; omega
        · rw [h2, hstep]; simp [List.filter_cons, hcv]
        · rw [h3, hstep]; simp [List.filter_cons, hcv]; omega
        · rw [h4, hstep]; simp [List.filter_cons, hcv]
        · rw [h5, hstep]; simp [List.filter_cons, hcv]
        · rw [h6, hstep, logTrace]
          simp only [periodicProcessed_append, periodicProcessed_if, logTick, hcv,
            Bool.false_eq_true, if_false, List.append_assoc]
      · have hcv : cellValid src p c = true := by simp [cellValid, hv]
        have hstep := stepCell_valid src p L d b st c hv
        refine ⟨?_, ?_, ?_, ?_, ?_, ?_⟩
        · rw [h1, hstep]; simp [List.length_cons]; omega
        · rw [h2, hstep]; simp [List.filter_cons, hcv]; omega
        · rw [h3, hstep]; simp [List.filter_cons, hcv]
        · rw [h4, hstep]; simp [List.filter_cons, hcv]
        · rw [h5, hstep]; simp [List.filter_cons, hcv]
        · rw [h6, hstep, logTrace]
          simp only [periodicProcessed_append, periodicProcessed_if, logTick, hcv,
            if_true, List.append_assoc]

/-! ### Cell-list and ceiling-division lemmas -/

theorem cellList_eq_range_map (rows cols : Nat) :
    cellList rows cols = (List.range (rows * cols)).map (cellAt cols) := by
  by_cases hc : cols = 0
  · subst hc
    simp [cellList]
  · have hc' : 0 < cols := Nat.pos_of_ne_zero hc
    induction rows with
    | zero => simp [cellList]
    | succ r ih =>
        rw [cellList, List.range_succ, List.flatMap_append,
          show (List.range r).flatMap (fun y => (List.range cols).map (fun x => (x, y)))
            = cellList r cols from rfl, ih,
          Nat.succ_mul, List.range_add, List.map_append, List.map_map]
        congr 1
        simp only [List.flatMap_cons, List.flatMap_nil, List.append_nil]
        apply List.map_congr_left
        intro a ha
        rw [List.mem_range] at ha
        have hmod : (r * cols + a) % cols = a := by
          rw [Nat.mul_comm r cols, Nat.mul_add_mod, Nat.mod_eq_of_lt ha]
        have hdiv : (r * cols + a) / cols = r := by
          rw [Nat.mul_comm r cols, Nat.mul_add_div hc', Nat.div_eq_of_lt ha, Nat.add_zero]
        simp [Function.comp, cellAt, hmod, hdiv]

theorem cellList_length (rows cols : Nat) : (cellList rows cols).length = rows * cols := by
  rw [cellList_eq_range_map]
  simp

theorem mem_cellList (rows cols : Nat) (c : Nat × Nat) :
    c ∈ cellList rows cols ↔ c.1 < cols ∧ c.2 < rows := by
  constructor
  · intro hc
    simp only [cellList, List.mem_flatMap, List.mem_map, List.mem_range] at hc
    obtain ⟨y, hy, x, hx, hxy⟩ := hc
    subst hxy
    exact ⟨hx, hy⟩
  · intro ⟨h1, h2⟩
    simp only [cellList, List.mem_flatMap, List.mem_map, List.mem_range]
    exact ⟨c.2, h2, c.1, h1, rfl⟩

theorem ceil_div_le (w p : Nat) (hp : 0 < p) : w ≤ p * ceil_div w p := by
  rw [ceil_div]
  have h2 := Nat.div_add_mod (w + p - 1) p
  have h3 := Nat.mod_lt (w + p - 1) hp
  omega

theorem lt_ceil_div (w p x : Nat) (hp : 0 < p) (hx : x * p < w) : x < ceil_div w p := by
  by_contra hcon
  push_neg at hcon
  have h1 : w ≤ p * ceil_div w p := ceil_div_le w p hp
  have h2 : p * ceil_div w p ≤ p * x := Nat.mul_le_mul_left p hcon
  have h3 : p * x = x * p := Nat.mul_comm p x
  omega

theorem ceil_div_mul_pred_lt (w p : Nat) (hp : 0 < p) (hw : 0 < w) :
    (ceil_div w p - 1) * p < w := by
  have h4 : ceil_div w p * p ≤ w + p - 1 := by
    rw [ceil_div]
    exact Nat.div_mul_le_self _ _
  have h5 : (ceil_div w p - 1) * p = ceil_div w p * p - p := by
    rw [Nat.sub_mul, Nat.one_mul]
  omega

theorem ceil_div_zero_left (p : Nat) (hp : 0 < p) : ceil_div 0 p = 0 := by
  rw [ceil_div]
  exact Nat.div_eq_of_lt (by omega)

theorem mul_lt_of_lt_ceil_div (w p x : Nat) (hp : 0 < p) (hx : x < ceil_div w p) :
    x * p < w := by
  have hw : 0 < w := by
    by_contra h0
    push_neg at h0
    have hw0 : w = 0 := by omega
    rw [hw0, ceil_div_zero_left p hp] at hx
    omega
  have h1 := ceil_div_mul_pred_lt w p hp hw
  have h2 : x * p ≤ (ceil_div w p - 1) * p := Nat.mul_le_mul_right p (by omega)
  omega

theorem colWindow_mem_iff (w p x i : Nat) (hp : 0 < p) (hi : i < w) :
    (x * p ≤ i ∧ i < x * p + min p (w - x * p)) ↔ x = i / p := by
  constructor
  · intro hh
    have h3 : i < x * p + p := by omega
    exact (Nat.div_eq_of_lt_le hh.1 (by rw [Nat.succ_mul]; omega)).symm
  · intro hx
    subst hx
    have h2 : i / p * p ≤ i := Nat.div_mul_le_self i p
    have h1 : i < i / p * p + p := by
      have ha := Nat.div_add_mod i p
      have hb := Nat.mod_lt i hp
      have hc : p * (i / p) = i / p * p := Nat.mul_comm _ _
      omega
    exact ⟨h2, by omega⟩

theorem ceil_div_eq_nat_ceil (w p : Nat) (hp : 0 < p) :
    ceil_div w p = Nat.ceil ((w : ℚ) / (p : ℚ)) := by
  have hpq : (0 : ℚ) < (p : ℚ) := by exact_mod_cast hp
  by_cases hw : w = 0
  · subst hw
    simp [ceil_div, Nat.div_eq_of_lt (by omega : p - 1 < p)]
  · have hw' : 0 < w := Nat.pos_of_ne_zero hw
    have hn0 : ceil_div w p ≠ 0 := by
      have := lt_ceil_div w p 0 hp (by simpa using hw')
      omega
    rw [eq_comm, Nat.ceil_eq_iff hn0]
    constructor
    · rw [lt_div_iff₀ hpq]
      exact_mod_cast ceil_div_mul_pred_lt w p hp hw'
    · rw [div_le_iff₀ hpq]
      have h1 : w ≤ ceil_div w p * p := by
        have h := ceil_div_le w p hp
        rw [Nat.mul_comm p (ceil_div w p)] at h
        exact h
      exact_mod_cast h1

/-! ### Log-trace membership -/

theorem mem_logTick (L : Nat) (valid : Bool) (k n : Nat) :
    n ∈ logTick L valid k ↔
      (L ≠ 0 ∧ ((valid = true ∧ n = k ∧ k % L = 0 ∧ k ≠ 0) ∨
                (valid = false ∧ n = k + 1 ∧ (k + 1) % L = 0))) := by
  cases valid <;> rw [logTick] <;> split_ifs with hc <;> simp_all

theorem mem_logTrace (L : Nat) (valid : Nat × Nat → Bool) :
    ∀ (cells : List (Nat × Nat)) (k0 n : Nat),
      n ∈ logTrace L valid k0 cells ↔
        (L ≠ 0 ∧ ∃ k, ∃ hk : k < cells.length,
          ((valid (cells.get ⟨k, hk⟩) = true ∧ n = k0 + k ∧ n % L = 0 ∧ n ≠ 0) ∨
           (valid (cells.get ⟨k, hk⟩) = false ∧ n = k0 + k + 1 ∧ n % L = 0))) := by
  intro cells
  induction cells with
  | nil =>
      intro k0 n
      simp [logTrace]
  | cons c cs ih =>
      intro k0 n
      rw [logTrace, List.mem_append, mem_logTick, ih (k0 + 1) n]
      constructor
      · rintro (⟨hL, hcase⟩ | ⟨hL, k, hk, hcase⟩)
        · refine ⟨hL, 0, by simp, ?_⟩
          rcases hcase with ⟨hv, hn, hm, h0⟩ | ⟨hv, hn, hm⟩
          · exact Or.inl ⟨by simpa using hv, by omega, by rw [hn]; exact hm, by omega⟩
          · exact Or.inr ⟨by simpa using hv, by omega, by rw [hn]; exact hm⟩
        · refine ⟨hL, k + 1, by simpa using Nat.succ_lt_succ hk, ?_⟩
          rcases hcase with ⟨hv, hn, hm, h0⟩ | ⟨hv, hn, hm⟩
          · exact Or.inl ⟨by simpa using hv, by omega, hm, h0⟩
          · exact Or.inr ⟨by simpa using hv, by omega, hm⟩
      · rintro ⟨hL, k, hk, hcase⟩
        match k, hk with
        | 0, hk =>
            left
            refine ⟨hL, ?_⟩
            rcases hcase with ⟨hv, hn, hm, h0⟩ | ⟨hv, hn, hm⟩
            · exact Or.inl ⟨by simpa using hv, by omega,
                by rw [show k0 = n by omega]; exact hm, by omega⟩
            · exact Or.inr ⟨by simpa using hv, by omega,
                by rw [show k0 + 1 = n by omega]; exact hm⟩
        | k + 1, hk =>
            right
            refine ⟨hL, k, by simpa using Nat.lt_of_succ_lt_succ hk, ?_⟩
            rcases hcase with ⟨hv, hn, hm, h0⟩ | ⟨hv, hn, hm⟩
            · refine Or.inl ⟨?_, by omega, hm, h0⟩
              simpa using hv
            · refine Or.inr ⟨?_, by omega, hm⟩
              simpa using hv

/-! ### Concrete fixtures used to exercise the theorems -/

/-- A concrete writer profile with tiling enabled, block sizes and a
BigTIFF flag, as a GeoTIFF source might carry. -/
def demoProfile : Profile :=
  [("driver", PVal.s "GTiff"), ("tiled", PVal.b true),
   ("blockxsize", PVal.i 256), ("blockysize", PVal.i 256),
   ("BIGTIFF", PVal.s "YES"), ("compress", PVal.s "lzw")]

/-- A 1×1 single-band source raster whose only pixel is valid. -/
def oneSrc : SourceRaster :=
  { width := 1, height := 1, bands := 1,
    transform := ⟨1, 0, 5, 0, -1, 7⟩,
    profile := demoProfile,
    data := fun _ _ _ => 3,
    mask := fun _ _ => 255 }

/-- A 2×1 single-band source raster with both pixels valid. -/
def twoSrc : SourceRaster :=
  { oneSrc with width := 2 }

/-- A 1×1 source raster that is fully NoData. -/
def noDataSrc : SourceRaster :=
  { oneSrc with mask := fun _ _ => 0 }

/-- A source raster with zero width (and nonzero height). -/
def zeroWidthSrc : SourceRaster :=
  { oneSrc with width := 0, height := 3 }

/-- The single tile written by a run over `oneSrc` with `patch_size = 1`. -/
def oneTile : Tile :=
  tileOf oneSrc 1 "patches" (sanitize_profile_for_small_geotiffs oneSrc.profile) (0, 0)

/-- Unfolding of the sanitizer's let-chain. -/
theorem sanitize_eq (p : Profile) :
    sanitize_profile_for_small_geotiffs p =
      dictPop (dictPop
        (if dictGet (dictPop (dictPop p "blockxsize") "blockysize") "tiled"
              = some (PVal.b true) then
          dictSet (dictPop (dictPop p "blockxsize") "blockysize") "tiled" (PVal.b false)
        else
          dictPop (dictPop p "blockxsize") "blockysize")
        "BIGTIFF") "bigtiff" := rfl

/-! ### Claim theorems -/

/-- **C6**: the profile sanitizer is a pure function over the writer
profile: it removes the `blockxsize` and `blockysize` keys, rewrites a
`tiled` flag that the source enabled (the exact boolean `True`) to
`False`, removes the big-file flag in both spellings (`BIGTIFF` and
`bigtiff`), and passes every other key's value through unchanged. -/
theorem C6_sanitizer_contract (p : Profile) :
    dictGet (sanitize_profile_for_small_geotiffs p) "blockxsize" = none ∧
    dictGet (sanitize_profile_for_small_geotiffs p) "blockysize" = none ∧
    dictGet (sanitize_profile_for_small_geotiffs p) "BIGTIFF" = none ∧
    dictGet (sanitize_profile_for_small_geotiffs p) "bigtiff" = none ∧
    (dictGet p "tiled" = some (PVal.b true) →
      dictGet (sanitize_profile_for_small_geotiffs p) "tiled" = some (PVal.b false)) ∧
    (∀ k : String, k ≠ "blockxsize" → k ≠ "blockysize" → k ≠ "BIGTIFF" →
      k ≠ "bigtiff" → k ≠ "tiled" →
      dictGet (sanitize_profile_for_small_geotiffs p) k = dictGet p k) := by
  refine ⟨?_, ?_, ?_, ?_, ?_, ?_⟩
  · rw [sanitize_eq, dictGet_dictPop_ne _ _ _ (by decide), dictGet_dictPop_ne _ _ _ (by decide)]
    split_ifs with hg
    · rw [dictGet_dictSet_ne _ _ _ _ (by decide), dictGet_dictPop_ne _ _ _ (by decide),
        dictGet_dictPop_self]
    · rw [dictGet_dictPop_ne _ _ _ (by decide), dictGet_dictPop_self]
  · rw [sanitize_eq, dictGet_dictPop_ne _ _ _ (by decide), dictGet_dictPop_ne _ _ _ (by decide)]
    split_ifs with hg
    · rw [dictGet_dictSet_ne _ _ _ _ (by decide), dictGet_dictPop_self]
    · rw [dictGet_dictPop_self]
  · rw [sanitize_eq, dictGet_dictPop_ne _ _ _ (by decide), dictGet_dictPop_self]
  · rw [sanitize_eq, dictGet_dictPop_self]
  · intro htiled
    rw [sanitize_eq, if_pos (by
      rw [dictGet_dictPop_ne _ _ _ (by decide), dictGet_dictPop_ne _ _ _ (by decide)]
      exact htiled)]
    rw [dictGet_dictPop_ne _ _ _ (by decide), dictGet_dictPop_ne _ _ _ (by decide),
      dictGet_dictSet_self]
  · intro k h1 h2 h3 h4 h5
    rw [sanitize_eq, dictGet_dictPop_ne _ _ _ h4, dictGet_dictPop_ne _ _ _ h3]
    split_ifs with hg
    · rw [dictGet_dictSet_ne _ _ _ _ h5, dictGet_dictPop_ne _ _ _ h2, dictGet_dictPop_ne _ _ _ h1]
    · rw [dictGet_dictPop_ne _ _ _ h2, dictGet_dictPop_ne _ _ _ h1]

/-- Witness for C6 on a concrete profile: block sizes gone, enabled tiling
rewritten to `False`, an unrelated key (`compress`) passed through. -/
theorem C6_sanitizer_contract_witness :
    dictGet (sanitize_profile_for_small_geotiffs demoProfile) "blockxsize" = none ∧
    dictGet (sanitize_profile_for_small_geotiffs demoProfile) "tiled" = some (PVal.b false) ∧
    dictGet (sanitize_profile_for_small_geotiffs demoProfile) "compress" = some (PVal.s "lzw") :=
  ⟨(C6_sanitizer_contract demoProfile).1,
   (C6_sanitizer_contract demoProfile).2.2.2.2.1 (by decide),
   ((C6_sanitizer_contract demoProfile).2.2.2.2.2 "compress"
     (by decide) (by decide) (by decide) (by decide) (by decide)).trans (by decide)⟩

/-- **C9**: a `tiled` entry that is not the exact boolean `True` (for
example a truthy string) is left unchanged by the sanitizer; only the
exact boolean `True` is rewritten to `False`. -/
theorem C9_tiled_untouched_unless_exactly_true (p : Profile) (v : PVal)
    (hv : dictGet p "tiled" = some v) (hne : v ≠ PVal.b true) :
    dictGet (sanitize_profile_for_small_geotiffs p) "tiled" = some v := by
  have hq : dictGet (dictPop (dictPop p "blockxsize") "blockysize") "tiled" = some v := by
    rw [dictGet_dictPop_ne _ _ _ (by decide), dictGet_dictPop_ne _ _ _ (by decide)]
    exact hv
  rw [sanitize_eq, if_neg (by
    rw [hq]
    intro hc
    exact hne (Option.some.inj hc))]
  rw [dictGet_dictPop_ne _ _ _ (by decide), dictGet_dictPop_ne _ _ _ (by decide)]
  exact hq

/-- Witness for C9: a profile whose `tiled` value is the truthy string
`"yes"` keeps it verbatim through the sanitizer. -/
theorem C9_tiled_untouched_unless_exactly_true_witness :
    dictGet (sanitize_profile_for_small_geotiffs [("tiled", PVal.s "yes")]) "tiled"
      = some (PVal.s "yes") :=
  C9_tiled_untouched_unless_exactly_true [("tiled", PVal.s "yes")] (PVal.s "yes")
    (by decide) (by decide)

/-- **C8**: the pipeline is deterministic: two runs over sources with
identical contents and identical `patch_size`, `out_dir`, `log_every`
produce identical run states — same tiles (paths, profiles, data, masks),
same reads, same logs and same final counters. -/
theorem C8_deterministic (s1 s2 : SourceRaster) (patch_size : Nat) (out_dir : String)
    (log_every : Nat)
    (hw : s1.width = s2.width) (hh : s1.height = s2.height) (hb : s1.bands = s2.bands)
    (ht : s1.transform = s2.transform) (hpr : s1.profile = s2.profile)
    (hd : ∀ bnd r c, s1.data bnd r c = s2.data bnd r c)
    (hm : ∀ r c, s1.mask r c = s2.mask r c) :
    split_to_patches s1 patch_size out_dir log_every
      = split_to_patches s2 patch_size out_dir log_every := by
  have hs : s1 = s2 := by
    obtain ⟨w1, h1, b1, t1, p1, d1, m1⟩ := s1
    obtain ⟨w2, h2, b2, t2, p2, d2, m2⟩ := s2
    simp only at hw hh hb ht hpr hd hm
    subst hw hh hb ht hpr
    have hdf : d1 = d2 := funext fun bnd => funext fun r => funext fun c => hd bnd r c
    have hmf : m1 = m2 := funext fun r => funext fun c => hm r c
    rw [hdf, hmf]
  rw [hs]

/-- Witness for C8 at a concrete source raster. -/
theorem C8_deterministic_witness :
    split_to_patches oneSrc 1 "patches" 0 = split_to_patches oneSrc 1 "patches" 0 :=
  C8_deterministic oneSrc oneSrc 1 "patches" 0 rfl rfl rfl rfl rfl
    (fun _ _ _ => rfl) (fun _ _ => rfl)

/-- **C10**: a source raster with zero width or zero height yields an
empty grid for every positive patch size: zero total cells, no cells
enumerated, no tiles written, no reads, and all counters zero at the end
of a normally-completed run. -/
theorem C10_zero_dimension_empty_grid (src : SourceRaster) (patch_size : Nat)
    (out_dir : String) (log_every : Nat) (hp : 0 < patch_size)
    (h0 : src.width = 0 ∨ src.height = 0) :
    n_cols src.width patch_size * n_rows src.height patch_size = 0 ∧
    cellList (n_rows src.height patch_size) (n_cols src.width patch_size) = [] ∧
    (split_to_patches src patch_size out_dir log_every).processed = 0 ∧
    (split_to_patches src patch_size out_dir log_every).written = 0 ∧
    (split_to_patches src patch_size out_dir log_every).discarded = 0 ∧
    (split_to_patches src patch_size out_dir log_every).tiles = [] ∧
    (split_to_patches src patch_size out_dir log_every).reads = [] := by
  have htot : n_cols src.width patch_size * n_rows src.height patch_size = 0 := by
    rcases h0 with h | h
    · rw [h, n_cols, ceil_div_zero_left _ hp, Nat.zero_mul]
    · rw [h, n_rows, ceil_div_zero_left _ hp, Nat.mul_zero]
  have hcells : cellList (n_rows src.height patch_size) (n_cols src.width patch_size) = [] := by
    rw [cellList_eq_range_map, show n_rows src.height patch_size * n_cols src.width patch_size
      = 0 from by rw [Nat.mul_comm]; exact htot]
    rfl
  refine ⟨htot, hcells, ?_, ?_, ?_, ?_, ?_⟩ <;>
    simp [split_to_patches, hcells, initState]

/-- Witness for C10 at a source with zero width. -/
theorem C10_zero_dimension_empty_grid_witness :
    n_cols zeroWidthSrc.width 1 * n_rows zeroWidthSrc.height 1 = 0 ∧
    cellList (n_rows zeroWidthSrc.height 1) (n_cols zeroWidthSrc.width 1) = [] ∧
    (split_to_patches zeroWidthSrc 1 "patches" 5000).processed = 0 ∧
    (split_to_patches zeroWidthSrc 1 "patches" 5000).written = 0 ∧
    (split_to_patches zeroWidthSrc 1 "patches" 5000).discarded = 0 ∧
    (split_to_patches zeroWidthSrc 1 "patches" 5000).tiles = [] ∧
    (split_to_patches zeroWidthSrc 1 "patches" 5000).reads = [] :=
  C10_zero_dimension_empty_grid zeroWidthSrc 1 "patches" 5000 (by decide) (Or.inl rfl)

/-- **C1**: under the fixed-patch-size policy the planner enumerates
`ceil(W/patch_size)` columns and `ceil(H/patch_size)` rows; each cell
`(x, y)` maps to the window with offsets `(x*patch_size, y*patch_size)`
and edge-clipped sizes; every window lies inside the raster; and every
pixel of the `W×H` rectangle lies in exactly one cell's window (no gaps,
no overlaps). -/
theorem C1_fixed_patch_grid_tiles_exactly (w h patch_size : Nat) (hp : 0 < patch_size) :
    n_cols w patch_size = Nat.ceil ((w : ℚ) / (patch_size : ℚ)) ∧
    n_rows h patch_size = Nat.ceil ((h : ℚ) / (patch_size : ℚ)) ∧
    (∀ x y : Nat, windowOf w h patch_size (x, y) =
      ⟨x * patch_size, y * patch_size,
       min patch_size (w - x * patch_size), min patch_size (h - y * patch_size)⟩) ∧
    (∀ c : Nat × Nat, c ∈ cellList (n_rows h patch_size) (n_cols w patch_size) →
      ∀ i j : Nat, inWindow (windowOf w h patch_size c) i j → i < w ∧ j < h) ∧
    (∀ i j : Nat, i < w → j < h →
      ∃! c : Nat × Nat, c ∈ cellList (n_rows h patch_size) (n_cols w patch_size) ∧
        inWindow (windowOf w h patch_size c) i j) := by
  refine ⟨ceil_div_eq_nat_ceil w patch_size hp, ceil_div_eq_nat_ceil h patch_size hp,
    fun x y => rfl, ?_, ?_⟩
  · intro c hc i j hw
    rw [mem_cellList] at hc
    obtain ⟨hx, hy⟩ := hc
    obtain ⟨h1, h2, h3, h4⟩ := hw
    have hxw : c.1 * patch_size < w := mul_lt_of_lt_ceil_div w patch_size c.1 hp hx
    have hyh : c.2 * patch_size < h := mul_lt_of_lt_ceil_div h patch_size c.2 hp hy
    constructor
    · have : (windowOf w h patch_size c).col_off = c.1 * patch_size := rfl
      have hwd : (windowOf w h patch_size c).width
          = min patch_size (w - c.1 * patch_size) := rfl
      rw [this, hwd] at h2
      omega
    · have : (windowOf w h patch_size c).row_off = c.2 * patch_size := rfl
      have hht : (windowOf w h patch_size c).height
          = min patch_size (h - c.2 * patch_size) := rfl
      rw [this, hht] at h4
      omega
  · intro i j hi hj
    refine ⟨(i / patch_size, j / patch_size), ⟨?_, ?_⟩, ?_⟩
    · rw [mem_cellList]
      constructor
      · exact lt_ceil_div w patch_size (i / patch_size) hp
          (Nat.lt_of_le_of_lt (Nat.div_mul_le_self i patch_size) hi)
      · exact lt_ceil_div h patch_size (j / patch_size) hp
          (Nat.lt_of_le_of_lt (Nat.div_mul_le_self j patch_size) hj)
    · have hcol := (colWindow_mem_iff w patch_size (i / patch_size) i hp hi).mpr rfl
      have hrow := (colWindow_mem_iff h patch_size (j / patch_size) j hp hj).mpr rfl
      exact ⟨hcol.1, hcol.2, hrow.1, hrow.2⟩
    · rintro c ⟨hc, hw⟩
      obtain ⟨h1, h2, h3, h4⟩ := hw
      have hcx : c.1 = i / patch_size :=
        (colWindow_mem_iff w patch_size c.1 i hp hi).mp ⟨h1, h2⟩
      have hcy : c.2 = j / patch_size :=
        (colWindow_mem_iff h patch_size c.2 j hp hj).mp ⟨h3, h4⟩
      exact Prod.ext hcx hcy

/-- Witness for C1: in a 100×100 raster with `patch_size = 32`, pixel
`(99, 99)` lies in exactly one planned window. -/
theorem C1_fixed_patch_grid_tiles_exactly_witness :
    ∃! c : Nat × Nat, c ∈ cellList (n_rows 100 32) (n_cols 100 32) ∧
      inWindow (windowOf 100 100 32 c) 99 99 :=
  (C1_fixed_patch_grid_tiles_exactly 100 100 32 (by decide)).2.2.2.2 99 99
    (by decide) (by decide)

theorem length_filter_split (l : List (Nat × Nat)) (p : Nat × Nat → Bool) :
    (l.filter p).length + (l.filter (fun x => !p x)).length = l.length := by
  induction l with
  | nil => rfl
  | cons a l ih => by_cases h : p a <;> simp [List.filter_cons, h] <;> omega

theorem stepCell_counters_le (src : SourceRaster) (p L : Nat) (d : String) (b : Profile)
    (st : RunState) (c : Nat × Nat) :
    st.processed ≤ (stepCell src p L d b st c).processed ∧
    st.written ≤ (stepCell src p L d b st c).written ∧
    st.discarded ≤ (stepCell src p L d b st c).discarded := by
  by_cases hv : windowMaskMax src (windowOf src.width src.height p c) = 0
  · rw [stepCell_invalid src p L d b st c hv]
    refine ⟨?_, ?_, ?_⟩ <;> simp
  · rw [stepCell_valid src p L d b st c hv]
    refine ⟨?_, ?_, ?_⟩ <;> simp

/-- **C2**: the run counters start at zero, satisfy
`processed = written + discarded` after every prefix of completed cells,
are monotonically non-decreasing from each cell to the next, and at run
completion `written + discarded` equals `total_cells = n_cols * n_rows`. -/
theorem C2_counter_invariants (src : SourceRaster) (patch_size : Nat) (out_dir : String)
    (log_every : Nat) (hp : 0 < patch_size) :
    ((run_upto src patch_size out_dir log_every 0).processed = 0 ∧
     (run_upto src patch_size out_dir log_every 0).written = 0 ∧
     (run_upto src patch_size out_dir log_every 0).discarded = 0) ∧
    (∀ k : Nat, (run_upto src patch_size out_dir log_every k).processed
        = (run_upto src patch_size out_dir log_every k).written
          + (run_upto src patch_size out_dir log_every k).discarded) ∧
    (∀ k : Nat,
      (run_upto src patch_size out_dir log_every k).processed
        ≤ (run_upto src patch_size out_dir log_every (k + 1)).processed ∧
      (run_upto src patch_size out_dir log_every k).written
        ≤ (run_upto src patch_size out_dir log_every (k + 1)).written ∧
      (run_upto src patch_size out_dir log_every k).discarded
        ≤ (run_upto src patch_size out_dir log_every (k + 1)).discarded) ∧
    ((split_to_patches src patch_size out_dir log_every).written
      + (split_to_patches src patch_size out_dir log_every).discarded
      = n_cols src.width patch_size * n_rows src.height patch_size) := by
  refine ⟨⟨rfl, rfl, rfl⟩, ?_, ?_, ?_⟩
  · intro k
    obtain ⟨h1, h2, h3, -, -, -⟩ :=
      foldl_stepCell_spec src patch_size log_every out_dir
        (sanitize_profile_for_small_geotiffs src.profile)
        ((cellList (n_rows src.height patch_size) (n_cols src.width patch_size)).take k)
        initState
    have hsplit := length_filter_split
      ((cellList (n_rows src.height patch_size) (n_cols src.width patch_size)).take k)
      (cellValid src patch_size)
    simp only [run_upto]
    rw [h1, h2, h3]
    simp only [initState]
    omega
  · intro k
    simp only [run_upto]
    rw [List.take_succ, List.foldl_append]
    cases hop : (cellList (n_rows src.height patch_size) (n_cols src.width patch_size))[k]? with
    | none => simp
    | some c =>
        simp only [Option.toList, List.foldl_cons, List.foldl_nil]
        exact stepCell_counters_le src patch_size log_every out_dir
          (sanitize_profile_for_small_geotiffs src.profile) _ c
  · obtain ⟨-, h2, h3, -, -, -⟩ :=
      foldl_stepCell_spec src patch_size log_every out_dir
        (sanitize_profile_for_small_geotiffs src.profile)
        (cellList (n_rows src.height patch_size) (n_cols src.width patch_size))
        initState
    have hsplit := length_filter_split
      (cellList (n_rows src.height patch_size) (n_cols src.width patch_size))
      (cellValid src patch_size)
    have hlen := cellList_length (n_rows src.height patch_size) (n_cols src.width patch_size)
    have hcomm : n_cols src.width patch_size * n_rows src.height patch_size
        = n_rows src.height patch_size * n_cols src.width patch_size := Nat.mul_comm _ _
    simp only [split_to_patches]
    rw [h2, h3]
    simp [initState]
    omega

/-- Witness for C2: at run completion over a concrete 1×1 raster,
`written + discarded = total_cells`. -/
theorem C2_counter_invariants_witness :
    (split_to_patches oneSrc 1 "patches" 0).written
      + (split_to_patches oneSrc 1 "patches" 0).discarded
      = n_cols oneSrc.width 1 * n_rows oneSrc.height 1 :=
  (C2_counter_invariants oneSrc 1 "patches" 0 (by decide)).2.2.2

theorem window_transform_apply_zero (wdw : Window) (t : Affine) :
    (window_transform wdw t).apply 0 0 = t.apply (wdw.col_off : ℚ) (wdw.row_off : ℚ) := by
  simp only [window_transform, Affine.mul, Affine.translation, Affine.apply,
    Prod.mk.injEq, mul_zero, add_zero, zero_add, mul_one]

/-- **C3**: a grid cell whose combined validity mask has maximum 0 is
never written as a tile at any point of the run, its window's pixel data
is never read, and processing it increments exactly the `discarded` and
`processed` counters by one, leaving `written`, the tiles and the reads
unchanged. -/
theorem C3_fully_invalid_cell_never_written (src : SourceRaster) (patch_size : Nat)
    (out_dir : String) (log_every : Nat) (c : Nat × Nat)
    (hmask : windowMaskMax src (windowOf src.width src.height patch_size c) = 0) :
    (∀ t ∈ (split_to_patches src patch_size out_dir log_every).tiles, t.cell ≠ c) ∧
    (∀ r ∈ (split_to_patches src patch_size out_dir log_every).reads, r.1 ≠ c) ∧
    (∀ st : RunState,
      (stepCell src patch_size log_every out_dir
        (sanitize_profile_for_small_geotiffs src.profile) st c).discarded
          = st.discarded + 1 ∧
      (stepCell src patch_size log_every out_dir
        (sanitize_profile_for_small_geotiffs src.profile) st c).processed
          = st.processed + 1 ∧
      (stepCell src patch_size log_every out_dir
        (sanitize_profile_for_small_geotiffs src.profile) st c).written = st.written ∧
      (stepCell src patch_size log_every out_dir
        (sanitize_profile_for_small_geotiffs src.profile) st c).tiles = st.tiles ∧
      (stepCell src patch_size log_every out_dir
        (sanitize_profile_for_small_geotiffs src.profile) st c).reads = st.reads) := by
  have hcv : cellValid src patch_size c = false := by simp [cellValid, hmask]
  obtain ⟨-, -, -, h4, h5, -⟩ :=
    foldl_stepCell_spec src patch_size log_every out_dir
      (sanitize_profile_for_small_geotiffs src.profile)
      (cellList (n_rows src.height patch_size) (n_cols src.width patch_size)) initState
  refine ⟨?_, ?_, ?_⟩
  · intro t ht
    have htl : (split_to_patches src patch_size out_dir log_every).tiles
        = ((cellList (n_rows src.height patch_size) (n_cols src.width patch_size)).foldl
            (stepCell src patch_size log_every out_dir
              (sanitize_profile_for_small_geotiffs src.profile)) initState).tiles := rfl
    rw [htl, h4] at ht
    simp only [initState, List.nil_append] at ht
    rw [List.mem_map] at ht
    obtain ⟨c', hc', hteq⟩ := ht
    rw [List.mem_filter] at hc'
    intro hcc
    rw [← hteq] at hcc
    have hcell : (tileOf src patch_size out_dir
        (sanitize_profile_for_small_geotiffs src.profile) c').cell = c' := rfl
    rw [hcell] at hcc
    rw [hcc] at hc'
    exact absurd hc'.2 (by simp [hcv])
  · intro r hr
    have hrl : (split_to_patches src patch_size out_dir log_every).reads
        = ((cellList (n_rows src.height patch_size) (n_cols src.width patch_size)).foldl
            (stepCell src patch_size log_every out_dir
              (sanitize_profile_for_small_geotiffs src.profile)) initState).reads := rfl
    rw [hrl, h5] at hr
    simp only [initState, List.nil_append] at hr
    rw [List.mem_map] at hr
    obtain ⟨c', hc', hreq⟩ := hr
    rw [List.mem_filter] at hc'
    intro hcc
    rw [← hreq] at hcc
    simp only at hcc
    rw [hcc] at hc'
    exact absurd hc'.2 (by simp [hcv])
  · intro st
    rw [stepCell_invalid src patch_size log_every out_dir
      (sanitize_profile_for_small_geotiffs src.profile) st c hmask]
    exact ⟨rfl, rfl, rfl, rfl, rfl⟩

/-- Witness for C3: the single fully-NoData cell of `noDataSrc` increments
`discarded` from the initial state. -/
theorem C3_fully_invalid_cell_never_written_witness :
    (stepCell noDataSrc 1 5000 "patches"
      (sanitize_profile_for_small_geotiffs noDataSrc.profile) initState (0, 0)).discarded
      = initState.discarded + 1 :=
  ((C3_fully_invalid_cell_never_written noDataSrc 1 "patches" 5000 (0, 0)
    (by decide)).2.2 initState).1

/-- **C4**: every written tile's profile stores the window's affine
transform, and applying it to pixel `(0, 0)` gives the same world
coordinate as applying the source transform to the window's offset
`(col_off, row_off) = (x*patch_size, y*patch_size)`. -/
theorem C4_tile_transform_matches_offset (src : SourceRaster) (patch_size : Nat)
    (out_dir : String) (log_every : Nat) :
    ∀ t ∈ (split_to_patches src patch_size out_dir log_every).tiles,
      ∃ tr : Affine,
        dictGet t.profile "transform" = some (PVal.af tr) ∧
        tr.apply 0 0 = src.transform.apply ((t.cell.1 * patch_size : Nat) : ℚ)
          ((t.cell.2 * patch_size : Nat) : ℚ) := by
  obtain ⟨-, -, -, h4, -, -⟩ :=
    foldl_stepCell_spec src patch_size log_every out_dir
      (sanitize_profile_for_small_geotiffs src.profile)
      (cellList (n_rows src.height patch_size) (n_cols src.width patch_size)) initState
  intro t ht
  have htl : (split_to_patches src patch_size out_dir log_every).tiles
      = ((cellList (n_rows src.height patch_size) (n_cols src.width patch_size)).foldl
          (stepCell src patch_size log_every out_dir
            (sanitize_profile_for_small_geotiffs src.profile)) initState).tiles := rfl
  rw [htl, h4] at ht
  simp only [initState, List.nil_append] at ht
  rw [List.mem_map] at ht
  obtain ⟨c', -, hteq⟩ := ht
  subst hteq
  refine ⟨window_transform (windowOf src.width src.height patch_size c') src.transform,
    ?_, ?_⟩
  · exact dictGet_dictSet_self _ _ _
  · rw [window_transform_apply_zero]
    rfl

/-- Witness for C4 at the single tile of a concrete run. -/
theorem C4_tile_transform_matches_offset_witness :
    ∃ tr : Affine,
      dictGet oneTile.profile "transform" = some (PVal.af tr) ∧
      tr.apply 0 0 = oneSrc.transform.apply ((oneTile.cell.1 * 1 : Nat) : ℚ)
        ((oneTile.cell.2 * 1 : Nat) : ℚ) :=
  C4_tile_transform_matches_offset oneSrc 1 "patches" 0 oneTile (by
    rw [show (split_to_patches oneSrc 1 "patches" 0).tiles = [oneTile] from rfl]
    exact List.mem_singleton.mpr rfl)

/-- **C5**: every written tile's profile declares exactly the clipped
window size — `min(patch_size, W - col_off)` by
`min(patch_size, H - row_off)` — never the nominal patch size. -/
theorem C5_tile_profile_clipped_size (src : SourceRaster) (patch_size : Nat)
    (out_dir : String) (log_every : Nat) :
    ∀ t ∈ (split_to_patches src patch_size out_dir log_every).tiles,
      dictGet t.profile "height"
        = some (PVal.i (Int.ofNat (min patch_size (src.height - t.cell.2 * patch_size)))) ∧
      dictGet t.profile "width"
        = some (PVal.i (Int.ofNat (min patch_size (src.width - t.cell.1 * patch_size)))) := by
  obtain ⟨-, -, -, h4, -, -⟩ :=
    foldl_stepCell_spec src patch_size log_every out_dir
      (sanitize_profile_for_small_geotiffs src.profile)
      (cellList (n_rows src.height patch_size) (n_cols src.width patch_size)) initState
  intro t ht
  have htl : (split_to_patches src patch_size out_dir log_every).tiles
      = ((cellList (n_rows src.height patch_size) (n_cols src.width patch_size)).foldl
          (stepCell src patch_size log_every out_dir
            (sanitize_profile_for_small_geotiffs src.profile)) initState).tiles := rfl
  rw [htl, h4] at ht
  simp only [initState, List.nil_append] at ht
  rw [List.mem_map] at ht
  obtain ⟨c', -, hteq⟩ := ht
  subst hteq
  constructor
  · rw [show (tileOf src patch_size out_dir
        (sanitize_profile_for_small_geotiffs src.profile) c').profile
      = out_profileOf src (sanitize_profile_for_small_geotiffs src.profile)
          (windowOf src.width src.height patch_size c') from rfl]
    rw [out_profileOf, dictGet_dictSet_ne _ _ _ _ (by decide),
      dictGet_dictSet_ne _ _ _ _ (by decide), dictGet_dictSet_self]
    rfl
  · rw [show (tileOf src patch_size out_dir
        (sanitize_profile_for_small_geotiffs src.profile) c').profile
      = out_profileOf src (sanitize_profile_for_small_geotiffs src.profile)
          (windowOf src.width src.height patch_size c') from rfl]
    rw [out_profileOf, dictGet_dictSet_ne _ _ _ _ (by decide), dictGet_dictSet_self]
    rfl

/-- Witness for C5 at the single tile of a concrete run. -/
theorem C5_tile_profile_clipped_size_witness :
    dictGet oneTile.profile "height"
      = some (PVal.i (Int.ofNat (min 1 (oneSrc.height - oneTile.cell.2 * 1)))) ∧
    dictGet oneTile.profile "width"
      = some (PVal.i (Int.ofNat (min 1 (oneSrc.width - oneTile.cell.1 * 1)))) :=
  C5_tile_profile_clipped_size oneSrc 1 "patches" 0 oneTile (by
    rw [show (split_to_patches oneSrc 1 "patches" 0).tiles = [oneTile] from rfl]
    exact List.mem_singleton.mpr rfl)

theorem logTrace_log_every_zero (valid : Nat × Nat → Bool) :
    ∀ (cells : List (Nat × Nat)) (k : Nat), logTrace 0 valid k cells = [] := by
  intro cells
  induction cells with
  | nil => intro k; rfl
  | cons c cs ih =>
      intro k
      rw [logTrace, ih]
      cases hval : valid c <;> simp [logTick]

/-- Claim C7 as stated: a periodic progress line carrying the value `n`
is printed exactly when the processed-cell count reaches `n` and `n` is a
positive multiple of `log_every`, regardless of whether the cell reaching
the multiple is written or discarded. -/
def claimC7 (src : SourceRaster) (patch_size : Nat) (out_dir : String)
    (log_every : Nat) : Prop :=
  ∀ n : Nat,
    n ∈ periodicProcessed (split_to_patches src patch_size out_dir log_every).logs ↔
      (0 < log_every ∧ 0 < n ∧ n % log_every = 0 ∧
        n ≤ (split_to_patches src patch_size out_dir log_every).processed)

/-- **C7** counterexample: on a 1×1 all-valid raster with `log_every = 1`,
`processed` reaches `1` — a positive multiple of `log_every` — yet no
periodic line is printed, because the write branch tests the counter
before incrementing it (and skips the value `0`). -/
theorem C7_counterexample_no_line_at_multiple : ¬ claimC7 oneSrc 1 "patches" 1 := by
  intro hcl
  have h1 : (1 : Nat) ∈ periodicProcessed (split_to_patches oneSrc 1 "patches" 1).logs :=
    (hcl 1).mpr ⟨Nat.one_pos, Nat.one_pos, rfl,
      le_of_eq (show (1 : Nat) = (split_to_patches oneSrc 1 "patches" 1).processed from rfl)⟩
  rw [show periodicProcessed (split_to_patches oneSrc 1 "patches" 1).logs = [] from rfl] at h1
  exact List.not_mem_nil 1 h1

/-- **C7** (amended): `log_every = 0` disables all periodic output; the
end-of-run summary is always printed; and for `log_every ≠ 0` a periodic
line carrying `processed = n` is printed iff `n` is a multiple of
`log_every` and either the cell processed in position `n` (1-based,
row-major) is discarded (the discard branch logs after incrementing), or
`n ≠ 0` and the cell processed in position `n + 1` exists and is written
(the write branch logs the pre-increment count). -/
theorem C7_amended_periodic_log_characterization (src : SourceRaster) (patch_size : Nat)
    (out_dir : String) (log_every : Nat) :
    (log_every = 0 →
      periodicProcessed (split_to_patches src patch_size out_dir log_every).logs = []) ∧
    ((split_to_patches src patch_size out_dir log_every).logs.getLast? = some LogEv.summary) ∧
    (∀ n : Nat,
      n ∈ periodicProcessed (split_to_patches src patch_size out_dir log_every).logs ↔
        (log_every ≠ 0 ∧ ∃ k : Nat,
          k < n_rows src.height patch_size * n_cols src.width patch_size ∧
          n % log_every = 0 ∧
          ((cellValid src patch_size (cellAt (n_cols src.width patch_size) k) = true ∧
              n = k ∧ n ≠ 0) ∨
           (cellValid src patch_size (cellAt (n_cols src.width patch_size) k) = false ∧
              n = k + 1)))) := by
  obtain ⟨-, -, -, -, -, h6⟩ :=
    foldl_stepCell_spec src patch_size log_every out_dir
      (sanitize_profile_for_small_geotiffs src.profile)
      (cellList (n_rows src.height patch_size) (n_cols src.width patch_size)) initState
  have hlogs : (split_to_patches src patch_size out_dir log_every).logs
      = ((cellList (n_rows src.height patch_size) (n_cols src.width patch_size)).foldl
          (stepCell src patch_size log_every out_dir
            (sanitize_profile_for_small_geotiffs src.profile)) initState).logs
        ++ [LogEv.summary] := rfl
  have hpp : periodicProcessed (split_to_patches src patch_size out_dir log_every).logs
      = logTrace log_every (cellValid src patch_size) 0
          (cellList (n_rows src.height patch_size) (n_cols src.width patch_size)) := by
    rw [hlogs, periodicProcessed_append, h6]
    show periodicProcessed initState.logs
        ++ logTrace log_every (cellValid src patch_size) initState.processed
            (cellList (n_rows src.height patch_size) (n_cols src.width patch_size))
        ++ periodicProcessed [LogEv.summary] = _
    rw [show periodicProcessed initState.logs = [] from rfl,
      show periodicProcessed [LogEv.summary] = [] from rfl,
      show initState.processed = 0 from rfl]
    rw [List.nil_append, List.append_nil]
  refine ⟨?_, ?_, ?_⟩
  · intro hL0
    rw [hpp, hL0, logTrace_log_every_zero]
  · rw [hlogs]
    exact List.getLast?_concat _
  · intro n
    have hpp2 : periodicProcessed (split_to_patches src patch_size out_dir log_every).logs
        = logTrace log_every (cellValid src patch_size) 0
            ((List.range (n_rows src.height patch_size * n_cols src.width patch_size)).map
              (cellAt (n_cols src.width patch_size))) := by
      rw [hpp, cellList_eq_range_map]
    rw [hpp2, mem_logTrace]
    constructor
    · rintro ⟨hL, k, hk, hcase⟩
      have hkN : k < n_rows src.height patch_size * n_cols src.width patch_size := by
        simpa using hk
      have hget : ((List.range (n_rows src.height patch_size * n_cols src.width patch_size)).map
          (cellAt (n_cols src.width patch_size))).get ⟨k, hk⟩
          = cellAt (n_cols src.width patch_size) k := by simp
      rw [hget] at hcase
      rcases hcase with ⟨hv, hn, hm, h0⟩ | ⟨hv, hn, hm⟩
      · exact ⟨hL, k, hkN, hm, Or.inl ⟨hv, by omega, h0⟩⟩
      · exact ⟨hL, k, hkN, hm, Or.inr ⟨hv, by omega⟩⟩
    · rintro ⟨hL, k, hkN, hm, hcase⟩
      have hk : k < ((List.range (n_rows src.height patch_size * n_cols src.width patch_size)).map
          (cellAt (n_cols src.width patch_size))).length := by simpa using hkN
      have hget : ((List.range (n_rows src.height patch_size * n_cols src.width patch_size)).map
          (cellAt (n_cols src.width patch_size))).get ⟨k, hk⟩
          = cellAt (n_cols src.width patch_size) k := by simp
      refine ⟨hL, k, hk, ?_⟩
      rw [hget]
      rcases hcase with ⟨hv, hn, h0⟩ | ⟨hv, hn⟩
      · exact Or.inl ⟨hv, by omega, hm, h0⟩
      · exact Or.inr ⟨hv, by omega, hm⟩

/-- Witness for the amended C7: on a 2×1 all-valid raster with
`log_every = 1`, the second written cell prints the pre-increment count
`1`. -/
theorem C7_amended_periodic_log_characterization_witness :
    (1 : Nat) ∈ periodicProcessed (split_to_patches twoSrc 1 "patches" 1).logs :=
  ((C7_amended_periodic_log_characterization twoSrc 1 "patches" 1).2.2 1).mpr
    ⟨by decide, 1, by decide, by decide, Or.inl ⟨by decide, rfl, by decide⟩⟩

end Pixxel
